import Mathlib

/-!
Verification of the Family Inc. game simulation (`src/family.py`).

Shallow embedding conventions:
* Python `int` is modelled as `Int`.
* A chip dictionary (`self.chips` of `ChipPool` or `Player`) always has
  exactly the keys `1..10`: `reset` / `reset_chips` install those keys and no
  operation ever adds or removes a key.  We model such a dictionary as a total
  function `Nat → Int` that the program only reads and writes at `1..10`;
  iteration over `.items()` / `.values()` is iteration over `chipList`.
* Randomness (`random.choices` in `ChipPool.draw`, the strategy predicates
  `will_draw`) is modelled by explicit oracle parameters: a draw takes the
  chosen chip value as an argument, and a Phase-2 run takes the list of chip
  values the player will draw before deciding to stop (an empty list models
  `will_draw()` returning `False`).  `random.choices` only ever returns a
  value of positive weight, which appears as the `drawValid` side condition
  on draw transitions.
* `random.choices` raises `ValueError` when the total weight is `≤ 0`; this
  and Python's `ZeroDivisionError` are modelled with `Except Unit`.
-/

namespace Family

/-- The chip values `range(1, 11)` over which every chip dictionary is keyed. -/
def chipList : List Nat := List.range' 1 10

/-- Full supply of a chip value: `15 if i < 6 else 11` (from `ChipPool.reset`
and the reshuffle branch of `ChipPool.draw`). -/
def supply (v : Nat) : Int := if v < 6 then 15 else 11

/-- Mutable state of `Player` (the fields of `Player.__init__`). -/
@[ext]
structure Player where
  chips : Nat → Int
  diamonds : Int
  score : Int
  drawn_chips : Int
  has_won : Bool

/-- A player after `Player.reset`: all counters zero, hand empty. -/
def freshPlayer : Player :=
  { chips := fun _ => 0, diamonds := 0, score := 0, drawn_chips := 0, has_won := false }

/-- The key list of a player's `chips` dictionary.  `reset_chips` installs the
keys `1..10` and no operation of the program ever adds or removes a key, so
the key set is invariably `1..10`; the Python expression `k in self.chips`
tests membership in this list. -/
def Player.keys (_p : Player) : List Nat := chipList

/-- Sum of `k * v` over `chips.items()` (the banking loop of `Player.step1`). -/
def handTotal (chips : Nat → Int) : Int :=
  (chipList.map (fun (k : Nat) => (k : Int) * chips k)).sum

/-- `Player.step1`: bank the diamond bonus and the hand, clear the hand,
set `has_won` when the score reaches 100. -/
def Player.step1 (p : Player) : Player :=
  let bonus : Int := if p.diamonds = 3 then 50 else 0
  let diamonds := if p.diamonds = 3 then 0 else p.diamonds
  let score := p.score + bonus + handTotal p.chips
  { chips := fun _ => 0, diamonds := diamonds, score := score,
    drawn_chips := p.drawn_chips,
    has_won := if 100 ≤ score then true else p.has_won }

/-- Table state shared by one game: the centre pool (`ChipPool.chips`) and
the roster (`self.players`, which the pool also references). -/
structure GameState (n : Nat) where
  pool : Nat → Int
  players : Fin n → Player

/-- Total number of chips held by the whole roster for one value
(a specification-side quantity used to state conservation). -/
def heldSum {n : Nat} (s : GameState n) (v : Nat) : Int :=
  ∑ j : Fin n, (s.players j).chips v

/-- The Python `sum(self.chips.values())` over a pool dictionary. -/
def poolTotal (pool : Nat → Int) : Int := (chipList.map pool).sum

/-- One iteration of the reshuffle subtraction
`for k, v in player.chips.items(): self.chips[k] -= v`. -/
def subtractHand (pool hand : Nat → Int) : Nat → Int :=
  fun v => if v ∈ chipList then pool v - hand v else pool v

/-- The reshuffled pool built inside `ChipPool.draw` when the pool is empty:
reset every value to its full supply, then subtract every player's hand. -/
def reshufflePool {n : Nat} (s : GameState n) : Nat → Int :=
  (List.finRange n).foldl (fun q j => subtractHand q (s.players j).chips) supply

/-- The pool the weighted pick in `ChipPool.draw` actually samples from:
the reshuffled pool when the current pool is empty, the current pool
otherwise. -/
def effectivePool {n : Nat} (s : GameState n) : Nat → Int :=
  if poolTotal s.pool = 0 then reshufflePool s else s.pool

/-- `ChipPool.draw` with the random pick `c` made explicit: reshuffle an empty
pool, fail like `random.choices` when the total weight is non-positive, and
otherwise decrement the picked value.  The drawn value is `c` itself. -/
def poolDraw {n : Nat} (s : GameState n) (c : Nat) : Except Unit (Nat → Int) :=
  if poolTotal (effectivePool s) ≤ 0 then .error ()
  else .ok (Function.update (effectivePool s) c (effectivePool s c - 1))

/-- The side condition under which `random.choices` can actually return `c`:
`c` is a key and its weight in the sampled pool is positive. -/
def drawValid {n : Nat} (s : GameState n) (c : Nat) : Prop :=
  c ∈ chipList ∧ 0 < effectivePool s c

/-- One iteration of the Phase-2 loop body of `Player.step2` for player `i`
drawing chip `c`: draw from the pool, count the draw, then either bust
(duplicate value: maybe gain a diamond, clear the hand, stop — `true`) or
keep the chip (`false`). -/
def drawStep {n : Nat} (i : Fin n) (s : GameState n) (c : Nat) :
    Except Unit (GameState n × Bool) :=
  (poolDraw s c).map (fun pool' =>
    let p := s.players i
    let p1 := { p with drawn_chips := p.drawn_chips + 1 }
    if 0 < p1.chips c then
      let p2 := if p1.drawn_chips ≤ 3 then { p1 with diamonds := p1.diamonds + 1 } else p1
      ({ pool := pool', players := Function.update s.players i { p2 with chips := fun _ => 0 } },
        true)
    else
      ({ pool := pool',
         players := Function.update s.players i
           { p1 with chips := Function.update p1.chips c (p1.chips c + 1) } },
        false))

/-- The `while self.will_draw()` loop of `Player.step2`: the oracle lists the
chips drawn before the strategy declines; a bust ends the loop at once. -/
def step2Loop {n : Nat} (i : Fin n) : GameState n → List Nat → Except Unit (GameState n)
  | s, [] => .ok s
  | s, c :: rest =>
    match drawStep i s c with
    | .error e => .error e
    | .ok (s', true) => .ok s'
    | .ok (s', false) => step2Loop i s' rest

/-- The `self.drawn_chips = 0` reset at the top of `Player.step2`. -/
def beginStep2 {n : Nat} (i : Fin n) (s : GameState n) : GameState n :=
  { s with players := Function.update s.players i { s.players i with drawn_chips := 0 } }

/-- `Player.step2` for player `i`. -/
def step2 {n : Nat} (i : Fin n) (s : GameState n) (oracle : List Nat) :
    Except Unit (GameState n) :=
  step2Loop i (beginStep2 i s) oracle

/-- `robbing_chips = [k for k, v in self.chips.items() if v > 0]`. -/
def robbingChips (chips : Nat → Int) : List Nat :=
  chipList.filter (fun k => 0 < chips k)

/-- The inner loop of `Player.step3` against one victim: for each robbing
value, move the victim's count onto the actor and zero the victim's count. -/
def stealChips : (Nat → Int) → (Nat → Int) → List Nat → (Nat → Int) × (Nat → Int)
  | a, v, [] => (a, v)
  | a, v, c :: rest =>
    stealChips (Function.update a c (a c + v c)) (Function.update v c 0) rest

/-- The outer loop of `Player.step3`: visit every player in roster order,
skip the actor, and steal the robbing values from each other player. -/
def step3Loop {n : Nat} (i : Fin n) (robbing : List Nat) :
    (Fin n → Player) → List (Fin n) → (Fin n → Player)
  | ps, [] => ps
  | ps, j :: rest =>
    if j = i then step3Loop i robbing ps rest
    else
      step3Loop i robbing
        (Function.update
          (Function.update ps i
            { ps i with chips := (stealChips (ps i).chips (ps j).chips robbing).1 })
          j { ps j with chips := (stealChips (ps i).chips (ps j).chips robbing).2 }) rest

/-- `Player.step3` for acting player `i`: the robbing list is computed once
from the actor's hand before any stealing happens. -/
def step3 {n : Nat} (i : Fin n) (s : GameState n) : GameState n :=
  { s with players := step3Loop i (robbingChips (s.players i).chips) s.players (List.finRange n) }

/-- `Player.step1` applied inside the table state. -/
def applyStep1 {n : Nat} (i : Fin n) (s : GameState n) : GameState n :=
  { s with players := Function.update s.players i (s.players i).step1 }

/-- The body of the round-robin loop of `game` for one player: Phase 1, the
win check on `has_won`, then Phases 2 and 3.  The `Bool` reports whether the
player has just won (in which case Phases 2 and 3 did not run). -/
def runTurn {n : Nat} (i : Fin n) (s : GameState n) (oracle : List Nat) :
    Except Unit (GameState n × Bool) :=
  let s1 := applyStep1 i s
  if (s1.players i).has_won then .ok (s1, true)
  else (step2 i s1 oracle).map (fun s2 => (step3 i s2, false))

/-- The `for player in players` loop of `game`, starting from a given suffix
of the roster; returns the winner as soon as a turn reports one. -/
def runRoundAux {n : Nat} (oracle : Fin n → List Nat) :
    GameState n → List (Fin n) → Except Unit (GameState n × Option (Fin n))
  | s, [] => .ok (s, none)
  | s, i :: rest =>
    match runTurn i s (oracle i) with
    | .error e => .error e
    | .ok (s1, true) => .ok (s1, some i)
    | .ok (s', false) => runRoundAux oracle s' rest

/-- One full round of `game` over the whole roster. -/
def runRound {n : Nat} (s : GameState n) (oracle : Fin n → List Nat) :
    Except Unit (GameState n × Option (Fin n)) :=
  runRoundAux oracle s (List.finRange n)

/-- The `while not game_over` loop of `game`, with fuel bounding the number of
rounds (the Python loop has no bound; `none` means the fuel ran out with no
winner yet).  `oracles r i` is the Phase-2 oracle of player `i` in round `r`. -/
def gameLoop {n : Nat} (oracles : Nat → Fin n → List Nat) :
    Nat → Nat → GameState n → Except Unit (Option (Fin n × GameState n))
  | 0, _, _ => .ok none
  | fuel + 1, r, s =>
    match runRound s (oracles r) with
    | .error e => .error e
    | .ok (s', some i) => .ok (some (i, s'))
    | .ok (s', none) => gameLoop oracles fuel (r + 1) s'

/-- The state at the start of `game`: a freshly reset pool (`ChipPool.reset`)
and a roster of freshly reset players (`player.reset()` in `experiment`). -/
def initState (n : Nat) : GameState n :=
  { pool := supply, players := fun _ => freshPlayer }

/-- `Player.calc_stealable`: sum over all other players of `k * v` over their
whole hand. -/
def calc_stealable {n : Nat} (players : Fin n → Player) (i : Fin n) : Int :=
  (((List.finRange n).filter (fun j => j ≠ i)).map
    (fun j => (chipList.map (fun (k : Nat) => (k : Int) * (players j).chips k)).sum)).sum

/-- `Player.to_be_stolen`: like `calc_stealable` but the comprehension filters
with `if k in self.chips`, i.e. membership of `k` in the key list of the
acting player's chip dictionary. -/
def to_be_stolen {n : Nat} (players : Fin n → Player) (i : Fin n) : Int :=
  (((List.finRange n).filter (fun j => j ≠ i)).map
    (fun j => ((chipList.filter (fun k => k ∈ (players i).keys)).map
      (fun (k : Nat) => (k : Int) * (players j).chips k)).sum)).sum

/-- The quantity the specification describes for `to_be_stolen`: the same sum
restricted to chip values of which the acting player currently holds at least
one (`self.chips[k] > 0` rather than `k in self.chips`). -/
def to_be_stolen_spec {n : Nat} (players : Fin n → Player) (i : Fin n) : Int :=
  (((List.finRange n).filter (fun j => j ≠ i)).map
    (fun j => ((chipList.filter (fun k => 0 < (players i).chips k)).map
      (fun (k : Nat) => (k : Int) * (players j).chips k)).sum)).sum

/-- The atomic state mutations a game performs, in the granularity of the
source: a whole Phase 1, the drawn-counter reset opening Phase 2, a single
Phase-2 draw iteration (with the `random.choices` side condition), and a
whole Phase 3. -/
inductive GStep (n : Nat) : GameState n → GameState n → Prop
  | bank (s : GameState n) (i : Fin n) : GStep n s (applyStep1 i s)
  | beginDraw (s : GameState n) (i : Fin n) : GStep n s (beginStep2 i s)
  | draw (s : GameState n) (i : Fin n) (c : Nat) (s' : GameState n) (b : Bool) :
      drawValid s c → drawStep i s c = .ok (s', b) → GStep n s s'
  | steal (s : GameState n) (i : Fin n) : GStep n s (step3 i s)

/-- The states a game can be in: everything reachable from the start state of
`game` by the atomic mutations of `GStep`. -/
inductive Reach (n : Nat) : GameState n → Prop
  | init : Reach n (initState n)
  | next {s s' : GameState n} : Reach n s → GStep n s s' → Reach n s'

/-- State invariant: pool counts are non-negative, held counts are
non-negative, and for every chip value the pool count plus the total held
count does not exceed the fixed supply. -/
def Inv {n : Nat} (s : GameState n) : Prop :=
  (∀ v ∈ chipList, 0 ≤ s.pool v) ∧
  (∀ (j : Fin n) (v : Nat), 0 ≤ (s.players j).chips v) ∧
  (∀ v ∈ chipList, s.pool v + heldSum s v ≤ supply v)

/-- Invariant relating diamonds and the hand: a player sitting on three
diamonds necessarily has an empty hand (the third diamond came from a bust,
which cleared it, and no later operation could refill it before the bonus is
banked). -/
def TurnInv {n : Nat} (s : GameState n) : Prop :=
  ∀ j : Fin n, (s.players j).diamonds = 3 → ∀ v, (s.players j).chips v = 0

/-- The 23 strategy instantiation names of `experiment`, in construction
order (the iteration order of the `winners` and `participations` dicts). -/
def strategyNames : List String :=
  ["Threshold-1", "Threshold-2", "Threshold-3", "Threshold-4", "Threshold-5",
   "Threshold-6", "Threshold-7", "Threshold-8",
   "Random-0.5", "Random-0.6", "Random-0.7", "Random-0.8", "Random-0.9",
   "Random-0.95",
   "Greedy-1", "Greedy-2", "Greedy-3", "Greedy-4", "Greedy-5", "Greedy-6",
   "Conservative-10", "Conservative-20", "Conservative-30"]

/-- The random outcomes of one trial of `experiment`: the 23 sampled weights,
the roster (instantiation indices chosen by `random.choices` with those
weights), and the position in the roster of the player `game` returned as
winner. -/
structure Trial where
  weights : List Nat
  roster : List Nat
  winner : Nat

/-- The outcomes a real run of `experiment n_players N` can produce for one
trial: weights are `random.randint(0, 10)` samples, the roster has
`n_players` members, `random.choices` only selects indices of positive
weight, and `game` returns one of the participating players. -/
def TrialValid (nPlayers : Nat) (t : Trial) : Prop :=
  t.weights.length = strategyNames.length ∧
  (∀ w ∈ t.weights, w ≤ 10) ∧
  t.roster.length = nPlayers ∧
  (∀ idx ∈ t.roster, idx < strategyNames.length ∧ 0 < t.weights.getD idx 0) ∧
  t.winner < t.roster.length

/-- The `winners` and `participations` tallies of `experiment` after the
trial loop: one win recorded under the winner's name per trial, one
participation recorded under each roster member's name per trial. -/
def tallies (trials : List Trial) : (String → Nat) × (String → Nat) :=
  trials.foldl
    (fun acc t =>
      let wname := strategyNames.getD (t.roster.getD t.winner 0) ""
      let winners := Function.update acc.1 wname (acc.1 wname + 1)
      let parts := t.roster.foldl
        (fun ps idx =>
          let nm := strategyNames.getD idx ""
          Function.update ps nm (ps nm + 1)) acc.2
      (winners, parts))
    (fun _ => 0, fun _ => 0)

/-- The win-rate loop of `experiment`: for every instantiation name compute
`wins / participations[player] * 100`; Python's division raises
`ZeroDivisionError` when a participation count is zero. -/
def winRatesOf (winners parts : String → Nat) : Except Unit (List (ℚ × String)) :=
  strategyNames.mapM (fun nm =>
    if parts nm = 0 then .error ()
    else .ok (((winners nm : ℚ) / (parts nm : ℚ)) * 100, nm))

/-- The result-reporting part of `experiment`, as a function of the random
outcomes of the trial loop. -/
def experimentModel (trials : List Trial) : Except Unit (List (ℚ × String)) :=
  winRatesOf (tallies trials).1 (tallies trials).2

/-- A trial in which only instantiation 0 has positive weight: the roster is
two copies of `Threshold-1` and the first of them wins the game. -/
def soloTrial : Trial :=
  { weights := 1 :: List.replicate 22 0, roster := [0, 0], winner := 0 }

/-- Extract the resulting state of a successful Phase-2 draw iteration. -/
def drawStepState {n : Nat} (d : GameState n) : Except Unit (GameState n × Bool) → GameState n
  | .ok (s, _) => s
  | .error _ => d

/-- A concrete two-player roster for the theft computations: the acting
player's hand is empty, the other player holds two chips of value 7. -/
def theftRoster : Fin 2 → Player :=
  fun j => if j = 0 then freshPlayer
    else { freshPlayer with chips := fun v => if v = 7 then 2 else 0 }

/-- The worked Phase-3 example roster: A holds two 3s and one 5, B holds one
3 and four 7s, C holds two 5s. -/
def exABC : GameState 3 :=
  { pool := supply,
    players := fun j =>
      if j = 0 then { freshPlayer with chips := fun v => if v = 3 then 2 else if v = 5 then 1 else 0 }
      else if j = 1 then { freshPlayer with chips := fun v => if v = 3 then 1 else if v = 7 then 4 else 0 }
      else { freshPlayer with chips := fun v => if v = 5 then 2 else 0 } }

/-- Concrete bust scenario: a lone player already holding one chip of value 1
with the pool untouched. -/
def bustState : GameState 1 :=
  { pool := supply,
    players := fun _ => { freshPlayer with chips := fun v => if v = 1 then 1 else 0 } }

/-- Concrete win scenario: a lone player at 99 points holding one chip of
value 1, so Phase 1 banks to 100. -/
def winState : GameState 1 :=
  { pool := supply,
    players := fun _ =>
      { freshPlayer with score := 99, chips := fun v => if v = 1 then 1 else 0 } }

/-- Concrete diamond-bonus scenario: a lone player holding three diamonds and
an empty hand. -/
def diamondState : GameState 1 :=
  { pool := supply, players := fun _ => { freshPlayer with diamonds := 3 } }

/-- Concrete reshuffle scenario: the pool is exhausted and the lone player
holds two chips of value 1. -/
def reshuffleState : GameState 1 :=
  { pool := fun _ => 0,
    players := fun _ => { freshPlayer with chips := fun v => if v = 1 then 2 else 0 } }

/-- Concrete edge-case scenario for the failing draw: the pool is exhausted
and the lone player holds the entire supply of every value. -/
def allHeldState : GameState 1 :=
  { pool := fun _ => 0, players := fun _ => { freshPlayer with chips := supply } }

/-- A concrete single-player game trace: Phase 1 (banks nothing). -/
def cex1 : GameState 1 := applyStep1 0 (initState 1)

/-- The trace continued: Phase 2 begins (drawn counter reset). -/
def cex2 : GameState 1 := beginStep2 0 cex1

/-- The trace continued: the player draws a chip of value 1 and keeps it. -/
def cex3 : GameState 1 := drawStepState cex2 (drawStep 0 cex2 1)

/-- The trace continued: Phase 3 (nobody else to steal from). -/
def cex4 : GameState 1 := step3 0 cex3

/-- The trace continued: the next round's Phase 1 banks the chip of value 1,
removing it from the player's hand without returning it to the pool. -/
def cex5 : GameState 1 := applyStep1 0 cex4

/-! Helper lemmas about sums, the reshuffle fold, and the stealing loops. -/

lemma mem_chipList {v : Nat} : v ∈ chipList ↔ 1 ≤ v ∧ v < 11 := by
  rw [chipList, List.mem_range'_1]

lemma handTotal_nonneg {chips : Nat → Int} (h : ∀ v, 0 ≤ chips v) :
    0 ≤ handTotal chips := by
  apply List.sum_nonneg
  intro x hx
  simp only [List.mem_map] at hx
  obtain ⟨k, _, rfl⟩ := hx
  exact mul_nonneg (by positivity) (h k)

lemma sum_update_chips {n : Nat} (ps : Fin n → Player) (i : Fin n) (p' : Player)
    (v : Nat) :
    (∑ j : Fin n, ((Function.update ps i p') j).chips v)
      = (∑ j : Fin n, (ps j).chips v) + p'.chips v - (ps i).chips v := by
  have h : ∀ j, ((Function.update ps i p') j).chips v
      = Function.update (fun j => (ps j).chips v) i (p'.chips v) j := by
    intro j
    by_cases hj : j = i
    · subst hj; simp
    · simp [Function.update_noteq hj]
  rw [Finset.sum_congr rfl (fun j _ => h j),
    Finset.sum_update_of_mem (Finset.mem_univ i)]
  have h2 := Finset.add_sum_erase Finset.univ (fun j => (ps j).chips v)
    (Finset.mem_univ i)
  rw [Finset.sdiff_singleton_eq_erase]
  linarith

lemma foldl_subtractHand {n : Nat} (ps : Fin n → Player) (v : Nat) :
    ∀ (l : List (Fin n)) (q : Nat → Int),
      (l.foldl (fun q j => subtractHand q (ps j).chips) q) v
        = q v - (if v ∈ chipList then (l.map (fun j => (ps j).chips v)).sum else 0) := by
  intro l
  induction l with
  | nil => intro q; simp
  | cons j rest ih =>
    intro q
    simp only [List.foldl_cons, List.map_cons, List.sum_cons]
    rw [ih]
    by_cases hv : v ∈ chipList
    · simp only [subtractHand, if_pos hv]; ring
    · simp [subtractHand, hv]

lemma reshufflePool_apply {n : Nat} (s : GameState n) (v : Nat) :
    reshufflePool s v = supply v - (if v ∈ chipList then heldSum s v else 0) := by
  unfold reshufflePool heldSum
  rw [foldl_subtractHand]
  by_cases hv : v ∈ chipList
  · simp [hv, Fin.sum_univ_def]
  · simp [hv]

lemma stealChips_fst (l : List Nat) : ∀ (a v : Nat → Int) (x : Nat),
    (stealChips a v l).1 x = a x + (if x ∈ l then v x else 0) := by
  induction l with
  | nil => intro a v x; simp [stealChips]
  | cons c rest ih =>
    intro a v x
    simp only [stealChips]
    rw [ih]
    rcases eq_or_ne x c with rfl | hx
    · simp
    · simp [Function.update_noteq hx, List.mem_cons, hx]

lemma stealChips_snd (l : List Nat) : ∀ (a v : Nat → Int) (x : Nat),
    (stealChips a v l).2 x = if x ∈ l then 0 else v x := by
  induction l with
  | nil => intro a v x; simp [stealChips]
  | cons c rest ih =>
    intro a v x
    simp only [stealChips]
    rw [ih]
    rcases eq_or_ne x c with rfl | hx
    · simp
    · simp [Function.update_noteq hx, List.mem_cons, hx]

lemma sum_map_filter_ne {α : Type} [DecidableEq α] (i : α) (f : α → Int) :
    ∀ (l : List α), l.Nodup → i ∈ l →
      ((l.filter (fun k => k ≠ i)).map f).sum = (l.map f).sum - f i := by
  intro l
  induction l with
  | nil => intro _ h; cases h
  | cons a rest ih =>
    intro hnd hi
    have hk : a ∉ rest := (List.nodup_cons.mp hnd).1
    have hrest : rest.Nodup := (List.nodup_cons.mp hnd).2
    simp only [List.filter_cons, List.map_cons, List.sum_cons]
    rcases eq_or_ne a i with rfl | hai
    · rw [if_neg (by simp)]
      have hfilter : rest.filter (fun k => decide (k ≠ a)) = rest := by
        apply List.filter_eq_self.mpr
        intro b hb
        have hba : b ≠ a := fun h => hk (h ▸ hb)
        simpa using hba
      rw [hfilter]
      ring
    · have hi' : i ∈ rest := by
        rcases List.mem_cons.mp hi with h | h
        · exact absurd h.symm hai
        · exact h
      rw [if_pos (by simpa using hai)]
      simp only [List.map_cons, List.sum_cons]
      rw [ih hrest hi']
      ring

lemma finRange_filter_map_sum {n : Nat} (i : Fin n) (f : Fin n → Int) :
    (((List.finRange n).filter (fun k => k ≠ i)).map f).sum
      = (∑ j : Fin n, f j) - f i := by
  rw [sum_map_filter_ne i f (List.finRange n) (List.nodup_finRange n)
    (List.mem_finRange i), Fin.sum_univ_def]

lemma mem_robbingChips {chips : Nat → Int} {x : Nat} :
    x ∈ robbingChips chips ↔ x ∈ chipList ∧ 0 < chips x := by
  simp [robbingChips, List.mem_filter]

lemma step3Loop_apply {n : Nat} (i : Fin n) (robbing : List Nat) :
    ∀ (L : List (Fin n)) (ps : Fin n → Player), L.Nodup → ∀ j : Fin n,
      step3Loop i robbing ps L j =
        if j = i then
          { ps i with chips := fun x => (ps i).chips x +
              (if x ∈ robbing
                then ((L.filter (fun k => k ≠ i)).map (fun k => (ps k).chips x)).sum
                else 0) }
        else if j ∈ L then
          { ps j with chips := fun x => if x ∈ robbing then 0 else (ps j).chips x }
        else ps j := by
  intro L
  induction L with
  | nil =>
    intro ps _ j
    show ps j = _
    rcases eq_or_ne j i with rfl | hj
    · rw [if_pos rfl]
      ext x
      · simp
      all_goals rfl
    · rw [if_neg hj, if_neg (List.not_mem_nil j)]
  | cons k rest ih =>
    intro ps hnd j
    have hk : k ∉ rest := (List.nodup_cons.mp hnd).1
    have hrest : rest.Nodup := (List.nodup_cons.mp hnd).2
    by_cases hki : k = i
    · subst hki
      have hstep : step3Loop k robbing ps (k :: rest) = step3Loop k robbing ps rest := by
        simp [step3Loop]
      rw [hstep, ih ps hrest j]
      have hf : (k :: rest).filter (fun k' => k' ≠ k) = rest.filter (fun k' => k' ≠ k) := by
        simp [List.filter_cons]
      rw [hf]
      rcases eq_or_ne j k with rfl | hj
      · simp
      · simp [hj, List.mem_cons]
    · simp only [step3Loop, if_neg hki]
      rw [ih _ hrest j]
      have hik : i ≠ k := Ne.symm hki
      have hpsi : (Function.update
          (Function.update ps i
            { ps i with chips := (stealChips (ps i).chips (ps k).chips robbing).1 })
          k { ps k with chips := (stealChips (ps i).chips (ps k).chips robbing).2 }) i
          = { ps i with chips := (stealChips (ps i).chips (ps k).chips robbing).1 } := by
        rw [Function.update_noteq hik, Function.update_same]
      have hpsk : (Function.update
          (Function.update ps i
            { ps i with chips := (stealChips (ps i).chips (ps k).chips robbing).1 })
          k { ps k with chips := (stealChips (ps i).chips (ps k).chips robbing).2 }) k
          = { ps k with chips := (stealChips (ps i).chips (ps k).chips robbing).2 } := by
        rw [Function.update_same]
      have hpsj : ∀ j' : Fin n, j' ≠ i → j' ≠ k → (Function.update
          (Function.update ps i
            { ps i with chips := (stealChips (ps i).chips (ps k).chips robbing).1 })
          k { ps k with chips := (stealChips (ps i).chips (ps k).chips robbing).2 }) j'
          = ps j' := by
        intro j' hji hjk
        rw [Function.update_noteq hjk, Function.update_noteq hji]
      rcases eq_or_ne j i with rfl | hj
      · rw [if_pos rfl, if_pos rfl, hpsi]
        have hfc : (k :: rest).filter (fun k' => k' ≠ j) = k :: rest.filter (fun k' => k' ≠ j) := by
          simp [List.filter_cons, hki]
        rw [hfc]
        ext x
        · show (stealChips (ps j).chips (ps k).chips robbing).1 x + _ = _
          rw [stealChips_fst]
          have hmap : (rest.filter (fun k' => k' ≠ j)).map
              (fun k' => ((Function.update
                (Function.update ps j
                  { ps j with chips := (stealChips (ps j).chips (ps k).chips robbing).1 })
                k { ps k with chips := (stealChips (ps j).chips (ps k).chips robbing).2 }) k').chips x)
              = (rest.filter (fun k' => k' ≠ j)).map (fun k' => (ps k').chips x) := by
            apply List.map_congr_left
            intro a ha
            have ha' := List.mem_filter.mp ha
            have hai : a ≠ j := by simpa using ha'.2
            have hak : a ≠ k := fun h => hk (h ▸ ha'.1)
            rw [hpsj a hai hak]
          rw [hmap]
          simp only [List.map_cons, List.sum_cons]
          by_cases hx : x ∈ robbing
          · simp only [if_pos hx]; ring
          · simp [hx]
        all_goals rfl
      · rw [if_neg hj, if_neg hj]
        rcases eq_or_ne j k with rfl | hjk
        · rw [if_neg (fun h => hk h), if_pos (List.mem_cons_self j rest), hpsk]
          ext x
          · show (stealChips (ps i).chips (ps j).chips robbing).2 x = _
            rw [stealChips_snd]
          all_goals rfl
        · by_cases hjr : j ∈ rest
          · rw [if_pos hjr, if_pos (List.mem_cons.mpr (Or.inr hjr)), hpsj j hj hjk]
          · rw [if_neg hjr, if_neg (by simp [List.mem_cons, hjk, hjr]), hpsj j hj hjk]

lemma step3_players_apply {n : Nat} (i : Fin n) (s : GameState n) (j : Fin n) :
    (step3 i s).players j =
      if j = i then
        { s.players i with chips := fun x => (s.players i).chips x +
            (if x ∈ robbingChips (s.players i).chips
              then (((List.finRange n).filter (fun k => k ≠ i)).map
                (fun k => (s.players k).chips x)).sum
              else 0) }
      else
        { s.players j with chips := fun x =>
            if x ∈ robbingChips (s.players i).chips then 0 else (s.players j).chips x } := by
  show step3Loop i (robbingChips (s.players i).chips) s.players (List.finRange n) j = _
  rw [step3Loop_apply i _ (List.finRange n) s.players (List.nodup_finRange n) j]
  rcases eq_or_ne j i with rfl | hj
  · rw [if_pos rfl, if_pos rfl]
  · rw [if_neg hj, if_neg hj, if_pos (List.mem_finRange j)]

lemma step3_pool {n : Nat} (i : Fin n) (s : GameState n) :
    (step3 i s).pool = s.pool := rfl

lemma step3_heldSum {n : Nat} (i : Fin n) (s : GameState n) (v : Nat) :
    heldSum (step3 i s) v = heldSum s v := by
  unfold heldSum
  rw [Finset.sum_congr rfl (fun j _ => congrArg (fun p => p.chips v)
    (step3_players_apply i s j))]
  by_cases hx : v ∈ robbingChips (s.players i).chips
  · have h1 : ∀ j : Fin n,
        (if j = i then
          { s.players i with chips := fun x => (s.players i).chips x +
              (if x ∈ robbingChips (s.players i).chips
                then (((List.finRange n).filter (fun k => k ≠ i)).map
                  (fun k => (s.players k).chips x)).sum
                else 0) }
        else
          { s.players j with chips := fun x =>
              if x ∈ robbingChips (s.players i).chips then 0
              else (s.players j).chips x }).chips v
        = if j = i then
            (s.players i).chips v + (((List.finRange n).filter (fun k => k ≠ i)).map
              (fun k => (s.players k).chips v)).sum
          else 0 := by
      intro j
      by_cases hj : j = i
      · simp [hj, hx]
      · simp [hj, hx]
    rw [Finset.sum_congr rfl (fun j _ => h1 j), Finset.sum_ite_eq' Finset.univ i,
      if_pos (Finset.mem_univ i), finRange_filter_map_sum]
    ring
  · have h1 : ∀ j : Fin n,
        (if j = i then
          { s.players i with chips := fun x => (s.players i).chips x +
              (if x ∈ robbingChips (s.players i).chips
                then (((List.finRange n).filter (fun k => k ≠ i)).map
                  (fun k => (s.players k).chips x)).sum
                else 0) }
        else
          { s.players j with chips := fun x =>
              if x ∈ robbingChips (s.players i).chips then 0
              else (s.players j).chips x }).chips v
        = (s.players j).chips v := by
      intro j
      by_cases hj : j = i
      · simp [hj, hx]
      · simp [hj, hx]
    rw [Finset.sum_congr rfl (fun j _ => h1 j)]

/-! Facts about single phases: Phase 1 banking, the pool draw, one Phase-2
iteration, and the whole Phase-2 loop. -/

lemma step1_chips (p : Player) (v : Nat) : p.step1.chips v = 0 := rfl

lemma step1_score (p : Player) :
    p.step1.score = p.score + (if p.diamonds = 3 then 50 else 0) + handTotal p.chips := rfl

lemma step1_diamonds (p : Player) :
    p.step1.diamonds = if p.diamonds = 3 then 0 else p.diamonds := rfl

lemma step1_drawn (p : Player) : p.step1.drawn_chips = p.drawn_chips := rfl

lemma step1_has_won (p : Player) :
    p.step1.has_won = if 100 ≤ p.step1.score then true else p.has_won := rfl

lemma step1_diamonds_ne3 (p : Player) : p.step1.diamonds ≠ 3 := by
  rw [step1_diamonds]
  by_cases h : p.diamonds = 3
  · simp [h]
  · simp [h]

lemma applyStep1_players_self {n : Nat} (i : Fin n) (s : GameState n) :
    (applyStep1 i s).players i = (s.players i).step1 := by
  unfold applyStep1
  exact Function.update_same i _ _

lemma applyStep1_players_other {n : Nat} (i j : Fin n) (s : GameState n) (h : j ≠ i) :
    (applyStep1 i s).players j = s.players j := by
  unfold applyStep1
  exact Function.update_noteq h _ _

lemma applyStep1_pool {n : Nat} (i : Fin n) (s : GameState n) :
    (applyStep1 i s).pool = s.pool := rfl

lemma poolDraw_ok {n : Nat} {s : GameState n} {c : Nat} {pool1 : Nat → Int}
    (h : poolDraw s c = .ok pool1) :
    ¬ poolTotal (effectivePool s) ≤ 0 ∧
    pool1 = Function.update (effectivePool s) c (effectivePool s c - 1) := by
  unfold poolDraw at h
  by_cases ht : poolTotal (effectivePool s) ≤ 0
  · rw [if_pos ht] at h
    cases h
  · rw [if_neg ht] at h
    cases h
    exact ⟨ht, rfl⟩

lemma drawStep_ok {n : Nat} {i : Fin n} {s : GameState n} {c : Nat}
    {s' : GameState n} {b : Bool} (h : drawStep i s c = .ok (s', b)) :
    poolDraw s c = .ok s'.pool ∧
    (∀ j, j ≠ i → s'.players j = s.players j) ∧
    (s'.players i).score = (s.players i).score ∧
    (s'.players i).has_won = (s.players i).has_won ∧
    (s'.players i).drawn_chips = (s.players i).drawn_chips + 1 ∧
    (if b then
        (∀ v, (s'.players i).chips v = 0) ∧ 0 < (s.players i).chips c ∧
        (s'.players i).diamonds = (s.players i).diamonds +
          (if (s.players i).drawn_chips + 1 ≤ 3 then 1 else 0)
      else
        (s'.players i).chips
            = Function.update (s.players i).chips c ((s.players i).chips c + 1) ∧
        ¬ 0 < (s.players i).chips c ∧
        (s'.players i).diamonds = (s.players i).diamonds) := by
  unfold drawStep at h
  cases hpd : poolDraw s c with
  | error e =>
    rw [hpd] at h
    simp [Except.map] at h
  | ok pool1 =>
    rw [hpd] at h
    simp only [Except.map, Except.ok.injEq] at h
    by_cases hc : 0 < (s.players i).chips c
    · rw [if_pos hc] at h
      by_cases hd3 : (s.players i).drawn_chips + 1 ≤ 3
      · rw [if_pos hd3] at h
        obtain ⟨hs, hb⟩ := Prod.mk.injEq .. ▸ h
        subst hs hb
        refine ⟨rfl, ?_, ?_, ?_, ?_, ?_⟩
        · intro j hj; exact Function.update_noteq hj _ _
        · simp [Function.update_same]
        · simp [Function.update_same]
        · simp [Function.update_same]
        · simp only [if_true]
          refine ⟨fun v => by simp [Function.update_same], hc, ?_⟩
          simp [Function.update_same, if_pos hd3]
      · rw [if_neg hd3] at h
        obtain ⟨hs, hb⟩ := Prod.mk.injEq .. ▸ h
        subst hs hb
        refine ⟨rfl, ?_, ?_, ?_, ?_, ?_⟩
        · intro j hj; exact Function.update_noteq hj _ _
        · simp [Function.update_same]
        · simp [Function.update_same]
        · simp [Function.update_same]
        · simp only [if_true]
          refine ⟨fun v => by simp [Function.update_same], hc, ?_⟩
          simp [Function.update_same, if_neg hd3]
    · rw [if_neg hc] at h
      obtain ⟨hs, hb⟩ := Prod.mk.injEq .. ▸ h
      subst hs hb
      refine ⟨rfl, ?_, ?_, ?_, ?_, ?_⟩
      · intro j hj; exact Function.update_noteq hj _ _
      · simp [Function.update_same]
      · simp [Function.update_same]
      · simp [Function.update_same]
      · simp only [if_false, Bool.false_eq_true]
        refine ⟨by simp [Function.update_same], hc, by simp [Function.update_same]⟩

lemma step2Loop_spec {n : Nat} (i : Fin n) :
    ∀ (o : List Nat) (s s' : GameState n), step2Loop i s o = .ok s' →
      (∀ j, j ≠ i → s'.players j = s.players j) ∧
      (s'.players i).score = (s.players i).score ∧
      (s'.players i).has_won = (s.players i).has_won ∧
      ((s'.players i).diamonds = (s.players i).diamonds ∨
        ((s'.players i).diamonds = (s.players i).diamonds + 1 ∧
          ∀ v, (s'.players i).chips v = 0)) := by
  intro o
  induction o with
  | nil =>
    intro s s' h
    cases h
    exact ⟨fun _ _ => rfl, rfl, rfl, Or.inl rfl⟩
  | cons c rest ih =>
    intro s s' h
    unfold step2Loop at h
    cases hd : drawStep i s c with
    | error e => rw [hd] at h; cases h
    | ok r =>
      obtain ⟨s1, b⟩ := r
      rw [hd] at h
      obtain ⟨-, hothers, hscore, hwon, hdrawn, hrest⟩ := drawStep_ok hd
      cases b with
      | true =>
        cases h
        simp only [if_true] at hrest
        obtain ⟨hzero, -, hdia⟩ := hrest
        refine ⟨hothers, hscore, hwon, ?_⟩
        by_cases h3 : (s.players i).drawn_chips + 1 ≤ 3
        · exact Or.inr ⟨by rw [hdia, if_pos h3], hzero⟩
        · exact Or.inl (by rw [hdia, if_neg h3]; ring)
      | false =>
        simp only [if_false, Bool.false_eq_true] at hrest
        obtain ⟨hchips, -, hdia⟩ := hrest
        obtain ⟨ih1, ih2, ih3, ih4⟩ := ih s1 s' h
        refine ⟨fun j hj => (ih1 j hj).trans (hothers j hj), ih2.trans hscore,
          ih3.trans hwon, ?_⟩
        rcases ih4 with h4 | ⟨h4, hz⟩
        · exact Or.inl (h4.trans hdia)
        · exact Or.inr ⟨by rw [h4, hdia], hz⟩

lemma beginStep2_players_self {n : Nat} (i : Fin n) (s : GameState n) :
    (beginStep2 i s).players i = { s.players i with drawn_chips := 0 } := by
  unfold beginStep2
  exact Function.update_same i _ _

lemma beginStep2_players_other {n : Nat} (i j : Fin n) (s : GameState n) (h : j ≠ i) :
    (beginStep2 i s).players j = s.players j := by
  unfold beginStep2
  exact Function.update_noteq h _ _

lemma beginStep2_pool {n : Nat} (i : Fin n) (s : GameState n) :
    (beginStep2 i s).pool = s.pool := rfl

lemma step2_spec {n : Nat} (i : Fin n) (s s' : GameState n) (o : List Nat)
    (h : step2 i s o = .ok s') :
    (∀ j, j ≠ i → s'.players j = s.players j) ∧
    (s'.players i).score = (s.players i).score ∧
    (s'.players i).has_won = (s.players i).has_won ∧
    ((s'.players i).diamonds = (s.players i).diamonds ∨
      ((s'.players i).diamonds = (s.players i).diamonds + 1 ∧
        ∀ v, (s'.players i).chips v = 0)) := by
  obtain ⟨h1, h2, h3, h4⟩ := step2Loop_spec i o _ s' h
  rw [beginStep2_players_self] at h2 h3 h4
  refine ⟨fun j hj => (h1 j hj).trans (beginStep2_players_other i j s hj), h2, h3, h4⟩

/-! The conservation-bound invariant and its preservation along game steps. -/

lemma supply_nonneg (v : Nat) : 0 ≤ supply v := by
  unfold supply
  split <;> norm_num

lemma heldSum_eq {n : Nat} (s : GameState n) (v : Nat) :
    heldSum s v = ∑ j : Fin n, (s.players j).chips v := rfl

lemma heldSum_update {n : Nat} (pool' : Nat → Int) (ps : Fin n → Player) (i : Fin n)
    (p' : Player) (v : Nat) :
    heldSum { pool := pool', players := Function.update ps i p' } v
      = (∑ j : Fin n, (ps j).chips v) + p'.chips v - (ps i).chips v :=
  sum_update_chips ps i p' v

lemma heldSum_split {n : Nat} (s : GameState n) (i : Fin n) (v : Nat) :
    heldSum s v
      = (s.players i).chips v + ∑ j in Finset.univ.erase i, (s.players j).chips v :=
  (Finset.add_sum_erase _ _ (Finset.mem_univ i)).symm

lemma heldSum_init (n : Nat) (v : Nat) : heldSum (initState n) v = 0 := by
  unfold heldSum initState freshPlayer
  simp

lemma effectivePool_spec {n : Nat} (s : GameState n) (hInv : Inv s) :
    ∀ v ∈ chipList, 0 ≤ effectivePool s v ∧ effectivePool s v + heldSum s v ≤ supply v := by
  intro v hv
  obtain ⟨hpool, hchips, hbound⟩ := hInv
  have hheld : 0 ≤ heldSum s v := Finset.sum_nonneg fun j _ => hchips j v
  unfold effectivePool
  by_cases ht : poolTotal s.pool = 0
  · rw [if_pos ht, reshufflePool_apply, if_pos hv]
    have h1 := hbound v hv
    have h2 := hpool v hv
    constructor <;> linarith
  · rw [if_neg ht]
    exact ⟨hpool v hv, hbound v hv⟩

lemma gstep_inv {n : Nat} {s s' : GameState n} (h : GStep n s s') (hInv : Inv s) :
    Inv s' := by
  obtain ⟨hpool, hchips, hbound⟩ := hInv
  cases h with
  | bank i =>
    refine ⟨fun v hv => hpool v hv, ?_, ?_⟩
    · intro j v
      rcases eq_or_ne j i with rfl | hj
      · rw [applyStep1_players_self, step1_chips]
      · rw [applyStep1_players_other i j s hj]
        exact hchips j v
    · intro v hv
      have hupd : heldSum (applyStep1 i s) v
          = (∑ j : Fin n, (s.players j).chips v) + (s.players i).step1.chips v
            - (s.players i).chips v := by
        unfold applyStep1
        exact heldSum_update s.pool s.players i _ v
      rw [applyStep1_pool, hupd, step1_chips, ← heldSum_eq]
      have h1 := hbound v hv
      have h2 := hchips i v
      linarith
  | beginDraw i =>
    refine ⟨fun v hv => hpool v hv, ?_, ?_⟩
    · intro j v
      rcases eq_or_ne j i with rfl | hj
      · rw [beginStep2_players_self]
        exact hchips j v
      · rw [beginStep2_players_other i j s hj]
        exact hchips j v
    · intro v hv
      have hupd : heldSum (beginStep2 i s) v
          = (∑ j : Fin n, (s.players j).chips v)
            + ({ s.players i with drawn_chips := 0 } : Player).chips v
            - (s.players i).chips v := by
        unfold beginStep2
        exact heldSum_update s.pool s.players i _ v
      rw [beginStep2_pool, hupd, ← heldSum_eq]
      have h1 := hbound v hv
      show s.pool v + (heldSum s v + (s.players i).chips v - (s.players i).chips v)
        ≤ supply v
      linarith
  | draw i c s' b hvalid hdraw =>
    obtain ⟨hpd, hothers, hscore, hwon, hdrawn, hbody⟩ := drawStep_ok hdraw
    obtain ⟨hpos, hpool1⟩ := poolDraw_ok hpd
    have heff := effectivePool_spec s ⟨hpool, hchips, hbound⟩
    have herase : ∀ v, ∑ j in Finset.univ.erase i, (s'.players j).chips v
        = ∑ j in Finset.univ.erase i, (s.players j).chips v := by
      intro v
      exact Finset.sum_congr rfl fun j hj => by
        rw [hothers j (Finset.ne_of_mem_erase hj)]
    refine ⟨?_, ?_, ?_⟩
    · intro v hv
      rw [hpool1]
      rcases eq_or_ne v c with rfl | hvc
      · rw [Function.update_same]
        have := hvalid.2
        linarith
      · rw [Function.update_noteq hvc]
        exact (heff v hv).1
    · intro j v
      rcases eq_or_ne j i with rfl | hj
      · cases b with
        | true =>
          simp only [if_true] at hbody
          rw [hbody.1 v]
        | false =>
          simp only [if_false, Bool.false_eq_true] at hbody
          rw [hbody.1]
          rcases eq_or_ne v c with rfl | hvc
          · rw [Function.update_same]
            have := hchips j v
            linarith
          · rw [Function.update_noteq hvc]
            exact hchips j v
      · rw [hothers j hj]
        exact hchips j v
    · intro v hv
      have hsplit' := heldSum_split s' i v
      have hsplit := heldSum_split s i v
      rw [herase v] at hsplit'
      have hpv : s'.pool v ≤ effectivePool s v := by
        rw [hpool1]
        rcases eq_or_ne v c with rfl | hvc
        · rw [Function.update_same]; linarith
        · rw [Function.update_noteq hvc]
      have hbv := (heff v hv).2
      cases b with
      | true =>
        simp only [if_true] at hbody
        have hz := hbody.1 v
        have := hchips i v
        rw [hsplit', hz]
        linarith [hsplit]
      | false =>
        simp only [if_false, Bool.false_eq_true] at hbody
        rw [hsplit', hbody.1]
        rcases eq_or_ne v c with rfl | hvc
        · rw [Function.update_same, hpool1, Function.update_same]
          linarith [hsplit]
        · rw [Function.update_noteq hvc, hpool1, Function.update_noteq hvc]
          linarith [hsplit]
  | steal i =>
    refine ⟨?_, ?_, ?_⟩
    · intro v hv
      rw [step3_pool]
      exact hpool v hv
    · intro j v
      rw [step3_players_apply]
      rcases eq_or_ne j i with rfl | hj
      · rw [if_pos rfl]
        show 0 ≤ (s.players j).chips v +
          (if v ∈ robbingChips (s.players j).chips
            then (((List.finRange n).filter (fun k => k ≠ j)).map
              (fun k => (s.players k).chips v)).sum
            else 0)
        have hgate : 0 ≤ (if v ∈ robbingChips (s.players j).chips
            then (((List.finRange n).filter (fun k => k ≠ j)).map
              (fun k => (s.players k).chips v)).sum
            else 0) := by
          split
          · apply List.sum_nonneg
            intro x hx
            obtain ⟨k, _, rfl⟩ := List.mem_map.mp hx
            exact hchips k v
          · exact le_refl 0
        have := hchips j v
        linarith
      · rw [if_neg hj]
        show 0 ≤ if v ∈ robbingChips (s.players i).chips then 0 else (s.players j).chips v
        split
        · exact le_refl 0
        · exact hchips j v
    · intro v hv
      rw [step3_pool, step3_heldSum]
      exact hbound v hv

lemma reach_inv {n : Nat} : ∀ s : GameState n, Reach n s → Inv s := by
  intro s h
  induction h with
  | init =>
    refine ⟨fun v _ => supply_nonneg v, fun j v => le_refl 0, fun v _ => ?_⟩
    rw [heldSum_init]
    show supply v + 0 ≤ supply v
    linarith
  | next _ hstep ih => exact gstep_inv hstep ih

/-! The diamonds-imply-empty-hand invariant carried from turn to turn. -/

lemma step3_diamonds {n : Nat} (i : Fin n) (s : GameState n) (j : Fin n) :
    ((step3 i s).players j).diamonds = (s.players j).diamonds := by
  rcases eq_or_ne j i with rfl | hj
  · rw [step3_players_apply, if_pos rfl]
  · rw [step3_players_apply, if_neg hj]

lemma step3_score {n : Nat} (i : Fin n) (s : GameState n) (j : Fin n) :
    ((step3 i s).players j).score = (s.players j).score := by
  rcases eq_or_ne j i with rfl | hj
  · rw [step3_players_apply, if_pos rfl]
  · rw [step3_players_apply, if_neg hj]

lemma turnInv_init (n : Nat) : TurnInv (initState n) := fun _ _ _ => rfl

lemma runTurn_turnInv {n : Nat} (i : Fin n) (s s' : GameState n) (o : List Nat)
    (w : Bool) (hInv : TurnInv s) (h : runTurn i s o = .ok (s', w)) : TurnInv s' := by
  unfold runTurn at h
  by_cases hw : ((applyStep1 i s).players i).has_won = true
  · rw [if_pos hw] at h
    cases h
    intro j h3 v
    rcases eq_or_ne j i with rfl | hj
    · rw [applyStep1_players_self, step1_chips]
    · rw [applyStep1_players_other i j s hj] at h3 ⊢
      exact hInv j h3 v
  · rw [if_neg hw] at h
    cases h2 : step2 i (applyStep1 i s) o with
    | error e =>
      rw [h2] at h
      simp [Except.map] at h
    | ok s2 =>
      rw [h2] at h
      simp only [Except.map, Except.ok.injEq] at h
      obtain ⟨hs, -⟩ := Prod.mk.injEq .. ▸ h
      subst hs
      obtain ⟨h2others, -, -, h2dia⟩ := step2_spec i (applyStep1 i s) s2 o h2
      intro j h3 v
      rw [step3_diamonds] at h3
      rcases eq_or_ne j i with rfl | hj
      · rcases h2dia with hcase | ⟨-, hz⟩
        · exfalso
          rw [hcase, applyStep1_players_self] at h3
          exact step1_diamonds_ne3 _ h3
        · rw [step3_players_apply, if_pos rfl]
          show (s2.players j).chips v + _ = 0
          have hnot : v ∉ robbingChips (s2.players j).chips := by
            rw [mem_robbingChips]
            rintro ⟨-, hpos⟩
            rw [hz v] at hpos
            exact lt_irrefl 0 hpos
          rw [hz v, if_neg hnot]
          norm_num
      · have hs2j : s2.players j = s.players j :=
          (h2others j hj).trans (applyStep1_players_other i j s hj)
        rw [hs2j] at h3
        rw [step3_players_apply, if_neg hj]
        show (if v ∈ robbingChips (s2.players i).chips then 0
          else (s2.players j).chips v) = 0
        split
        · rfl
        · rw [hs2j]
          exact hInv j h3 v

lemma to_be_stolen_eq_calc_stealable {n : Nat} (players : Fin n → Player)
    (i : Fin n) : to_be_stolen players i = calc_stealable players i := by
  have hfil : chipList.filter (fun k => k ∈ (players i).keys) = chipList := by
    apply List.filter_eq_self.mpr
    intro k hk
    simpa [Player.keys] using hk
  unfold to_be_stolen calc_stealable
  simp only [hfil]

/-! The claim theorems. -/

/-- C1 (amended): at every reachable point of a game, for every chip value
`v` in 1–10, pool and held counts are non-negative and the pool's remaining
count for `v` plus the sum over all players of their held count for `v` is at
most the fixed supply (15 for values 1–5, 11 for values 6–10).  Exact
equality does not hold at every point: Phase 1 banking and Phase-2 busts
clear hands without returning the chips to the pool, so the total dips below
the supply until the next reshuffle. -/
theorem chip_conservation_bound {n : Nat} (s : GameState n) (h : Reach n s) :
    ∀ v ∈ chipList, 0 ≤ s.pool v ∧ (∀ j : Fin n, 0 ≤ (s.players j).chips v) ∧
      s.pool v + heldSum s v ≤ supply v := by
  obtain ⟨h1, h2, h3⟩ := reach_inv s h
  exact fun v hv => ⟨h1 v hv, fun j => h2 j v, h3 v hv⟩

/-- Witness for C1 (amended), at the start state of a two-player game and
chip value 1. -/
theorem chip_conservation_bound_witness :
    0 ≤ (initState 2).pool 1 ∧ (∀ j : Fin 2, 0 ≤ ((initState 2).players j).chips 1) ∧
      (initState 2).pool 1 + heldSum (initState 2) 1 ≤ supply 1 :=
  chip_conservation_bound (initState 2) Reach.init 1 (by decide)

/-- C1 counterexample: exact conservation (`remaining + held = supply`) fails
at a reachable state.  A lone player draws a chip of value 1 and banks it in
the next Phase 1: the pool then holds 14 chips of value 1, nobody holds one,
and the supply is 15. -/
theorem chip_conservation_cex :
    ¬ (∀ s : GameState 1, Reach 1 s →
        ∀ v ∈ chipList, s.pool v + heldSum s v = supply v) := by
  intro h
  have r1 : Reach 1 cex1 := Reach.next Reach.init (GStep.bank (initState 1) 0)
  have r2 : Reach 1 cex2 := Reach.next r1 (GStep.beginDraw cex1 0)
  have r3 : Reach 1 cex3 :=
    Reach.next r2 (GStep.draw cex2 0 1 cex3 false ⟨by decide, by decide⟩ (by rfl))
  have r4 : Reach 1 cex4 := Reach.next r3 (GStep.steal cex3 0)
  have r5 : Reach 1 cex5 := Reach.next r4 (GStep.bank cex4 0)
  have hbad := h cex5 r5 1 (by decide)
  revert hbad
  decide

/-- C2: `Player.to_be_stolen` does not restrict the sum to chip values the
acting player holds at least one of.  Its comprehension filters with
`k in self.chips`, a key-membership test that is always true since every
value 1–10 is permanently a key, so it equals `calc_stealable`.  At the
failing input (acting player holds nothing, the other player holds two 7s)
the code returns 14 while the specified overlap-restricted quantity is 0. -/
theorem to_be_stolen_ignores_overlap :
    to_be_stolen theftRoster 0 = 14 ∧ to_be_stolen_spec theftRoster 0 = 0 ∧
      calc_stealable theftRoster 0 = 14 := by
  refine ⟨by decide, by decide, by decide⟩

/-- C3: in Phase 2, when the drawn chip's value is already held, the loop
returns at once no matter what the strategy would have drawn later, the
whole hand is cleared, no score is awarded, and the diamond count grows by
one exactly when the bust happened on or before the third draw of the turn. -/
theorem bust_rules {n : Nat} (i : Fin n) (s : GameState n) (c : Nat)
    (pool1 : Nat → Int) (hp : poolDraw s c = .ok pool1)
    (hb : 0 < (s.players i).chips c) :
    ∃ s' : GameState n,
      (∀ rest2 : List Nat, step2Loop i s (c :: rest2) = .ok s') ∧
      (∀ v, (s'.players i).chips v = 0) ∧
      (s'.players i).score = (s.players i).score ∧
      (s'.players i).diamonds = (s.players i).diamonds +
        (if (s.players i).drawn_chips + 1 ≤ 3 then 1 else 0) := by
  cases hd : drawStep i s c with
  | error e =>
    exfalso
    unfold drawStep at hd
    rw [hp] at hd
    simp [Except.map] at hd
  | ok r =>
    obtain ⟨s1, b⟩ := r
    have hbt : b = true := by
      obtain ⟨-, -, -, -, -, hbody⟩ := drawStep_ok hd
      cases b with
      | true => rfl
      | false =>
        simp only [if_false, Bool.false_eq_true] at hbody
        exact absurd hb hbody.2.1
    subst hbt
    obtain ⟨-, -, hscore, -, -, hbody⟩ := drawStep_ok hd
    simp only [if_true] at hbody
    obtain ⟨hz, -, hdia⟩ := hbody
    refine ⟨s1, ?_, hz, hscore, hdia⟩
    intro rest2
    unfold step2Loop
    rw [hd]

/-- Witness for C3: a lone player holding one chip of value 1 draws another
chip of value 1 and busts. -/
theorem bust_rules_witness :
    ∃ s' : GameState 1,
      (∀ rest2 : List Nat, step2Loop 0 bustState (1 :: rest2) = .ok s') ∧
      (∀ v, (s'.players 0).chips v = 0) ∧
      (s'.players 0).score = (bustState.players 0).score ∧
      (s'.players 0).diamonds = (bustState.players 0).diamonds +
        (if (bustState.players 0).drawn_chips + 1 ≤ 3 then 1 else 0) :=
  bust_rules 0 bustState 1
    (Function.update (effectivePool bustState) 1 (effectivePool bustState 1 - 1))
    (by rfl) (by decide)

/-- C4: Phase 3 moves, for exactly the chip values the acting player holds at
least one of, every other player's copies onto the acting player and zeroes
those other players' counts, leaving values the actor does not hold
untouched; and the worked example behaves as the specification states. -/
theorem steal_spec :
    (∀ (n : Nat) (i : Fin n) (s : GameState n), ∀ v ∈ chipList,
      (((step3 i s).players i).chips v = (s.players i).chips v +
        (if 0 < (s.players i).chips v
          then (((List.finRange n).filter (fun k => k ≠ i)).map
            (fun k => (s.players k).chips v)).sum
          else 0)) ∧
      (∀ j : Fin n, j ≠ i →
        ((step3 i s).players j).chips v
          = if 0 < (s.players i).chips v then 0 else (s.players j).chips v)) ∧
    (((step3 0 exABC).players 0).chips 3 = 3 ∧
      ((step3 0 exABC).players 0).chips 5 = 3 ∧
      ((step3 0 exABC).players 1).chips 3 = 0 ∧
      ((step3 0 exABC).players 1).chips 7 = 4 ∧
      ((step3 0 exABC).players 2).chips 5 = 0) := by
  refine ⟨?_, by decide⟩
  intro n i s v hv
  have hiff : v ∈ robbingChips (s.players i).chips ↔ 0 < (s.players i).chips v :=
    ⟨fun h => (mem_robbingChips.mp h).2, fun h => mem_robbingChips.mpr ⟨hv, h⟩⟩
  constructor
  · rw [step3_players_apply, if_pos rfl]
    show (s.players i).chips v + _ = _
    congr 1
    exact if_congr hiff rfl rfl
  · intro j hj
    rw [step3_players_apply, if_neg hj]
    show (if v ∈ robbingChips (s.players i).chips then 0 else (s.players j).chips v) = _
    exact if_congr hiff rfl rfl

/-- Witness for C4, on the worked example: player B keeps the four 7s after
A's Phase 3, since A holds no 7s. -/
theorem steal_spec_witness :
    ((step3 0 exABC).players 1).chips 7
      = if 0 < (exABC.players 0).chips 7 then 0 else (exABC.players 1).chips 7 :=
  (steal_spec.1 3 0 exABC 7 (by decide)).2 1 (by decide)

/-- C5: the round loop stops the instant a player's post-Phase-1 score
reaches 100: the state returned is exactly the post-Phase-1 state (no
Phase 2 or Phase 3 ran for that player or any later player), and the game
loop returns that player as the winner without playing further rounds. -/
theorem win_stops_game {n : Nat} (s : GameState n) (i : Fin n)
    (rest : List (Fin n)) (oracle : Fin n → List Nat)
    (h : 100 ≤ ((applyStep1 i s).players i).score) :
    runRoundAux oracle s (i :: rest) = .ok (applyStep1 i s, some i) ∧
    (∀ (fuel r : Nat) (oracles : Nat → Fin n → List Nat) (s0 t : GameState n),
      runRound s0 (oracles r) = .ok (t, some i) →
      gameLoop oracles (fuel + 1) r s0 = .ok (some (i, t))) := by
  have hwon : ((applyStep1 i s).players i).has_won = true := by
    rw [applyStep1_players_self] at h ⊢
    rw [step1_has_won, if_pos h]
  constructor
  · have hrt : runTurn i s (oracle i) = .ok (applyStep1 i s, true) := by
      show (if ((applyStep1 i s).players i).has_won = true
        then Except.ok (applyStep1 i s, true)
        else (step2 i (applyStep1 i s) (oracle i)).map
          (fun s2 => (step3 i s2, false))) = _
      rw [if_pos hwon]
    unfold runRoundAux
    rw [hrt]
  · intro fuel r oracles s0 t hrun
    unfold gameLoop
    rw [hrun]

/-- Witness for C5: a lone player at 99 points banks one chip of value 1 in
Phase 1 and the round returns that player at once. -/
theorem win_stops_game_witness :
    runRoundAux (fun _ => []) winState ((0 : Fin 1) :: []) =
      .ok (applyStep1 0 winState, some 0) :=
  (win_stops_game winState 0 [] (fun _ => []) (by decide)).1

/-- C6: diamonds imply an empty hand (true initially and preserved by every
turn of any player), and a player entering Phase 1 with exactly three
diamonds gains exactly 50 points and has the diamond count reset to 0 in
that same phase. -/
theorem diamond_bonus (n : Nat) :
    TurnInv (initState n) ∧
    (∀ (i : Fin n) (s s' : GameState n) (o : List Nat) (w : Bool),
      TurnInv s → runTurn i s o = .ok (s', w) → TurnInv s') ∧
    (∀ (s : GameState n) (i : Fin n), TurnInv s → (s.players i).diamonds = 3 →
      ((applyStep1 i s).players i).score = (s.players i).score + 50 ∧
      ((applyStep1 i s).players i).diamonds = 0) := by
  refine ⟨turnInv_init n,
    fun i s s' o w h1 h2 => runTurn_turnInv i s s' o w h1 h2, ?_⟩
  intro s i hInv h3
  rw [applyStep1_players_self]
  constructor
  · rw [step1_score, if_pos h3]
    have hz : handTotal (s.players i).chips = 0 := by
      unfold handTotal
      apply List.sum_eq_zero
      intro x hx
      obtain ⟨k, -, rfl⟩ := List.mem_map.mp hx
      rw [hInv i h3 k, mul_zero]
    rw [hz]
    ring
  · rw [step1_diamonds, if_pos h3]

/-- Witness for C6: a lone player holding three diamonds and an empty hand
banks exactly 50 in Phase 1 and drops back to zero diamonds. -/
theorem diamond_bonus_witness :
    ((applyStep1 0 diamondState).players 0).score
        = (diamondState.players 0).score + 50 ∧
      ((applyStep1 0 diamondState).players 0).diamonds = 0 :=
  (diamond_bonus 1).2.2 diamondState 0 (fun _ _ _ => rfl) (by decide)

/-- C7: when `draw` is called on an exhausted pool, the reshuffled pool holds
the full supply minus the chips currently held across all players, and the
pool the draw then returns equals that value further decremented by one at
the picked chip only. -/
theorem reshuffle_subtracts_held {n : Nat} (s : GameState n)
    (h0 : poolTotal s.pool = 0) :
    (∀ v ∈ chipList, reshufflePool s v = supply v - heldSum s v) ∧
    (∀ (c : Nat) (pool1 : Nat → Int), poolDraw s c = .ok pool1 →
      ∀ v ∈ chipList, pool1 v = (supply v - heldSum s v) - (if v = c then 1 else 0)) := by
  have hr : ∀ v ∈ chipList, reshufflePool s v = supply v - heldSum s v := by
    intro v hv
    rw [reshufflePool_apply, if_pos hv]
  refine ⟨hr, ?_⟩
  intro c pool1 hpd v hv
  obtain ⟨-, hpool1⟩ := poolDraw_ok hpd
  have heq : effectivePool s = reshufflePool s := by
    unfold effectivePool
    rw [if_pos h0]
  rw [hpool1, heq]
  rcases eq_or_ne v c with rfl | hvc
  · rw [Function.update_same, if_pos rfl, hr v hv]
  · rw [Function.update_noteq hvc, if_neg hvc, hr v hv]
    ring

/-- Witness for C7: the pool is exhausted and the lone player holds two chips
of value 1, so the reshuffled count for value 1 is 15 − 2 = 13. -/
theorem reshuffle_subtracts_held_witness :
    reshufflePool reshuffleState 1 = supply 1 - heldSum reshuffleState 1 :=
  (reshuffle_subtracts_held reshuffleState (by decide)).1 1 (by decide)

/-- C8: no atomic game operation (Phase 1 banking, a Phase-2 draw iteration,
the Phase-2 counter reset, Phase 3 stealing — with pool draws and reshuffles
happening inside draw iterations) ever decreases any player's score, at any
reachable state. -/
theorem score_monotone {n : Nat} (s s' : GameState n) (hr : Reach n s)
    (hstep : GStep n s s') (j : Fin n) :
    (s.players j).score ≤ (s'.players j).score := by
  obtain ⟨-, hchips, -⟩ := reach_inv s hr
  cases hstep with
  | bank i =>
    rcases eq_or_ne j i with rfl | hj
    · rw [applyStep1_players_self, step1_score]
      have h1 : (0:Int) ≤ if (s.players j).diamonds = 3 then 50 else 0 := by
        split <;> norm_num
      have h2 := handTotal_nonneg (fun v => hchips j v)
      linarith
    · rw [applyStep1_players_other i j s hj]
  | beginDraw i =>
    rcases eq_or_ne j i with rfl | hj
    · rw [beginStep2_players_self]
    · rw [beginStep2_players_other i j s hj]
  | draw i c s2 b hvalid hdraw =>
    obtain ⟨-, hothers, hscore, -, -, -⟩ := drawStep_ok hdraw
    rcases eq_or_ne j i with rfl | hj
    · rw [hscore]
    · rw [hothers j hj]
  | steal i =>
    rw [step3_score]

/-- Witness for C8: Phase 1 at the start state does not decrease the
player's score. -/
theorem score_monotone_witness :
    ((initState 1).players 0).score ≤ (cex1.players 0).score :=
  score_monotone (initState 1) cex1 Reach.init (GStep.bank (initState 1) 0) 0

/-- C9: if the reshuffle inside `draw` still leaves every remaining count at
zero (all chips held by players), the draw fails with an error instead of
returning a chip value, exactly as `random.choices` raises on a
non-positive total weight. -/
theorem draw_fails_when_all_held {n : Nat} (s : GameState n)
    (h0 : poolTotal s.pool = 0) (hz : ∀ v ∈ chipList, reshufflePool s v = 0)
    (c : Nat) : poolDraw s c = .error () := by
  have heq : effectivePool s = reshufflePool s := by
    unfold effectivePool
    rw [if_pos h0]
  have ht : poolTotal (reshufflePool s) = 0 := by
    unfold poolTotal
    apply List.sum_eq_zero
    intro x hx
    obtain ⟨v, hv, rfl⟩ := List.mem_map.mp hx
    exact hz v hv
  unfold poolDraw
  rw [heq, if_pos (le_of_eq ht)]

/-- Witness for C9: the pool is exhausted and the lone player holds the full
supply of every value, so the post-reshuffle pool is all zero and the draw
errors. -/
theorem draw_fails_when_all_held_witness :
    poolDraw allHeldState 5 = .error () :=
  draw_fails_when_all_held allHeldState (by decide) (by decide) 5

/-- C10: `experiment` can fail with a division-by-zero error: in a valid
single trial of a two-player table in which only instantiation 0
(`Threshold-1`) has positive weight, every other instantiation's
participation count stays zero, and the win-rate loop errors on the very
next name instead of reporting results. -/
theorem experiment_div_by_zero :
    TrialValid 2 soloTrial ∧ experimentModel [soloTrial] = .error () := by
  refine ⟨⟨by decide, by decide, by decide, by decide, by decide⟩, rfl⟩

end Family
